import Mathlib

/-!
Verification of the MMM-SynPhotoSlideshow backend pipeline.

This file gives a shallow embedding, in Lean, of the image acquisition,
batching, caching and metadata-enrichment pipeline of the module:

* `ImageListManager` — shuffle, sort, already-shown tracking and the batch
  cursor (`src/backend/ImageListManager.ts`);
* `SynologyPhotosClient.removeDuplicatePhotos` — batch deduplication
  (`src/backend/SynologyPhotosClient.ts`);
* `ImageCache` — size accounting and mtime-ordered eviction
  (`src/backend/ImageCache.ts`);
* `ExifExtractor` — the crash-safe metadata database (load/save),
  `savePhotoMetadata`, and the rate-limited reverse-geocoding queue
  (`src/backend/ExifExtractor.ts`).

Platform primitives (the file system, `JSON.parse`, `Number.parseFloat`,
`Date.now`, `Math.random`) are modelled as explicit parameters or explicit
state, so every definition stays executable.  JavaScript's built-in stable
`Array.prototype.sort` is modelled by Mathlib's stable `List.insertionSort`
keyed by the source comparators (an element `a` precedes `b` exactly when
the source comparator returns a value `≤ 0`).
-/

namespace SynPhotoSlideshow

open List

/-- A photo item as consumed by the list manager (`PhotoItem` in
`SynologyPhotosClient.ts`): stable path/name plus creation and modification
timestamps (epoch milliseconds). -/
structure PhotoItem where
  path : String
  created : Int
  modified : Int
deriving DecidableEq, Repr

namespace ImageListManager

/-- JavaScript destructuring swap `[a[i], a[j]] = [a[j], a[i]]` on a list:
when both indices are in bounds the two elements are exchanged, otherwise
the list is returned unchanged (in the source both indices are always in
bounds: `i ≥ 1` and `j = Math.floor(r * (i + 1)) ≤ i`). -/
def listSwap (l : List α) (i j : Nat) : List α :=
  match l.get? i, l.get? j with
  | some a, some b => (l.set i b).set j a
  | _, _ => l

/-- One step of the linear-congruential generator used to seed the first
shuffle pass: `seed = (seed * 9301 + 49297) % 233280`. -/
def lcgNext (seed : Nat) : Nat :=
  (seed * 9301 + 49297) % 233280

/-- The LCG state after `k` calls of `seededRandom`, starting from the
`Date.now()` seed. -/
def lcgIterate (seed : Nat) : Nat → Nat
  | 0 => seed
  | k + 1 => lcgNext (lcgIterate seed k)

/-- Index chosen by the seeded pass at loop position `i` (counting down from
`n - 1`): the source computes `Math.floor(seededRandom() * (i + 1))` with
`seededRandom() = seed / 233280`; on integers this is
`seed * (i + 1) / 233280`, which is `≤ i` since `seed < 233280`. -/
def lcgChooser (seed n i : Nat) : Nat :=
  lcgIterate seed (n - i) * (i + 1) / 233280

/-- The Fisher–Yates loop `for (let i = len - 1; i > 0; i--) swap(i, c i)`,
parameterised by the chooser `c` that yields the random index for each `i`. -/
def fisherYatesFrom (c : Nat → Nat) : Nat → List α → List α
  | 0, l => l
  | i + 1, l => fisherYatesFrom c i (listSwap l (i + 1) (c (i + 1)))

/-- One full Fisher–Yates pass over a list driven by chooser `c`. -/
def fisherYatesPass (l : List α) (c : Nat → Nat) : List α :=
  fisherYatesFrom c (l.length - 1) l

/-- `shuffleArray` from `ImageListManager.ts`: copies the input and runs two
Fisher–Yates passes — the first driven by the LCG seeded from `Date.now()`
(modelled by the `seed` parameter), the second by `Math.random` (modelled by
the arbitrary chooser `mathRandom`). -/
def shuffleArray (seed : Nat) (mathRandom : Nat → Nat) (array : List PhotoItem) :
    List PhotoItem :=
  fisherYatesPass (fisherYatesPass array (lcgChooser seed array.length)) mathRandom

theorem cons_set_perm : ∀ (xs : List α) (k : Nat) (b x : α),
    xs.get? k = some b → (b :: xs.set k x).Perm (x :: xs)
  | [], k, _, _, h => by simp at h
  | y :: ys, 0, b, x, h => by
    simp only [List.get?] at h
    have hb := Option.some.inj h
    subst hb
    simpa using List.Perm.swap x y ys
  | y :: ys, k + 1, b, x, h => by
    simp only [List.get?] at h
    have ih := cons_set_perm ys k b x h
    calc (b :: (y :: ys).set (k + 1) x)
        = b :: y :: ys.set k x := rfl
      _ ~ y :: b :: ys.set k x := List.Perm.swap y b _
      _ ~ y :: x :: ys := ih.cons y
      _ ~ x :: y :: ys := List.Perm.swap x y ys

theorem set_set_perm : ∀ (l : List α) (i j : Nat) (a b : α),
    l.get? i = some a → l.get? j = some b → ((l.set i b).set j a).Perm l
  | [], _, _, _, _, h, _ => by simp at h
  | x :: xs, 0, 0, a, b, h1, h2 => by
    simp only [List.get?] at h1 h2
    have ha := Option.some.inj h1
    have hb := Option.some.inj h2
    subst ha
    subst hb
    simp
  | x :: xs, 0, k + 1, a, b, h1, h2 => by
    simp only [List.get?] at h1 h2
    have ha := Option.some.inj h1
    subst ha
    exact cons_set_perm xs k b x h2
  | x :: xs, m + 1, 0, a, b, h1, h2 => by
    simp only [List.get?] at h1 h2
    have hb := Option.some.inj h2
    subst hb
    exact cons_set_perm xs m a x h1
  | x :: xs, m + 1, k + 1, a, b, h1, h2 => by
    simp only [List.get?] at h1 h2
    exact (set_set_perm xs m k a b h1 h2).cons x

theorem listSwap_perm (l : List α) (i j : Nat) : (listSwap l i j).Perm l := by
  unfold listSwap
  split
  · exact set_set_perm l i j _ _ (by assumption) (by assumption)
  · exact List.Perm.refl l

theorem fisherYatesFrom_perm (c : Nat → Nat) :
    ∀ (i : Nat) (l : List α), (fisherYatesFrom c i l).Perm l
  | 0, l => List.Perm.refl l
  | i + 1, l =>
    (fisherYatesFrom_perm c i _).trans (listSwap_perm l (i + 1) (c (i + 1)))

theorem fisherYatesPass_perm (l : List α) (c : Nat → Nat) :
    (fisherYatesPass l c).Perm l :=
  fisherYatesFrom_perm c (l.length - 1) l

theorem shuffleArray_perm (seed : Nat) (mathRandom : Nat → Nat)
    (array : List PhotoItem) : (shuffleArray seed mathRandom array).Perm array :=
  (fisherYatesPass_perm _ mathRandom).trans
    (fisherYatesPass_perm array (lcgChooser seed array.length))

/-- C7: for every input list, `shuffleArray` (Fisher–Yates run twice, first
with the time-seeded LCG, then with the platform random source) returns a
permutation of the input: same length, same multiset — every element of the
input appears in the output exactly as often as in the input. -/
theorem shuffleArray_permutation (seed : Nat) (mathRandom : Nat → Nat)
    (array : List PhotoItem) :
    (shuffleArray seed mathRandom array).Perm array ∧
      (shuffleArray seed mathRandom array).length = array.length ∧
      ∀ x : PhotoItem, (shuffleArray seed mathRandom array).count x = array.count x := by
  have hperm : (shuffleArray seed mathRandom array).Perm array :=
    shuffleArray_perm seed mathRandom array
  exact ⟨hperm, hperm.length_eq, fun x => hperm.count_eq x⟩

/-- JavaScript `s.toLowerCase()` modelled character-wise on the string's
character list. -/
def pathLower (p : String) : List Char :=
  p.data.map Char.toLower

/-- Lexicographic (code-unit) string comparison `aL ≤ bL`, as JavaScript's
relational operators compare strings. -/
def charsLeB : List Char → List Char → Bool
  | [], _ => true
  | _ :: _, [] => false
  | a :: as, b :: bs => if a < b then true else if b < a then false else charsLeB as bs

/-- Ordering induced by the `sortByFilename` comparator: the source returns
`1` when `a.path.toLowerCase() > b.path.toLowerCase()` and `-1` otherwise,
so `a` may stay before `b` exactly when `aL ≤ bL` (lexicographic,
case-insensitive). -/
def filenameLe (a b : PhotoItem) : Prop :=
  charsLeB (pathLower a.path) (pathLower b.path) = true

theorem charsLeB_total : ∀ xs ys : List Char, charsLeB xs ys = true ∨ charsLeB ys xs = true
  | [], _ => Or.inl rfl
  | _ :: _, [] => Or.inr rfl
  | x :: xs, y :: ys => by
    rcases lt_trichotomy x y with h | h | h
    · left
      simp [charsLeB, h]
    · subst h
      rcases charsLeB_total xs ys with ih | ih
      · left
        simp [charsLeB, ih]
      · right
        simp [charsLeB, ih]
    · right
      simp [charsLeB, h]

theorem charsLeB_trans : ∀ xs ys zs : List Char,
    charsLeB xs ys = true → charsLeB ys zs = true → charsLeB xs zs = true
  | [], _, _, _, _ => rfl
  | _ :: _, [], _, h1, _ => by simp [charsLeB] at h1
  | _ :: _, _ :: _, [], _, h2 => by simp [charsLeB] at h2
  | x :: xs, y :: ys, z :: zs, h1, h2 => by
    by_cases hxy : x < y <;> by_cases hyz : y < z
    · simp [charsLeB, lt_trans hxy hyz]
    · have hzy : ¬ z < y := by
        intro hzy
        simp [charsLeB, hyz, hzy] at h2
      have hyeqz : y = z := le_antisymm (not_lt.mp hzy) (not_lt.mp hyz)
      subst hyeqz
      simp [charsLeB, hxy]
    · have hyx : ¬ y < x := by
        intro hyx
        simp [charsLeB, hxy, hyx] at h1
      have hxeqy : x = y := le_antisymm (not_lt.mp hyx) (not_lt.mp hxy)
      subst hxeqy
      simp [charsLeB, hyz]
    · have hyx : ¬ y < x := by
        intro hyx
        simp [charsLeB, hxy, hyx] at h1
      have hzy : ¬ z < y := by
        intro hzy
        simp [charsLeB, hyz, hzy] at h2
      have hxeqy : x = y := le_antisymm (not_lt.mp hyx) (not_lt.mp hxy)
      have hyeqz : y = z := le_antisymm (not_lt.mp hzy) (not_lt.mp hyz)
      subst hxeqy
      subst hyeqz
      simp only [charsLeB, if_neg hxy] at h1 h2 ⊢
      exact charsLeB_trans xs ys zs h1 h2

/-- Ordering induced by the `sortByCreated` comparator `a.created - b.created`. -/
def createdLe (a b : PhotoItem) : Prop :=
  a.created ≤ b.created

/-- Ordering induced by the `sortByModified` comparator `a.modified - b.modified`. -/
def modifiedLe (a b : PhotoItem) : Prop :=
  a.modified ≤ b.modified

instance : DecidableRel filenameLe := fun a b =>
  inferInstanceAs (Decidable (charsLeB (pathLower a.path) (pathLower b.path) = true))

instance : DecidableRel createdLe := fun a b =>
  inferInstanceAs (Decidable (a.created ≤ b.created))

instance : DecidableRel modifiedLe := fun a b =>
  inferInstanceAs (Decidable (a.modified ≤ b.modified))

instance : IsTotal PhotoItem filenameLe :=
  ⟨fun a b => charsLeB_total (pathLower a.path) (pathLower b.path)⟩

instance : IsTrans PhotoItem filenameLe :=
  ⟨fun a b c h1 h2 =>
    charsLeB_trans (pathLower a.path) (pathLower b.path) (pathLower c.path) h1 h2⟩

instance : IsTotal PhotoItem createdLe :=
  ⟨fun a b => le_total a.created b.created⟩

instance : IsTrans PhotoItem createdLe :=
  ⟨fun _ _ _ h1 h2 => le_trans h1 h2⟩

instance : IsTotal PhotoItem modifiedLe :=
  ⟨fun a b => le_total a.modified b.modified⟩

instance : IsTrans PhotoItem modifiedLe :=
  ⟨fun _ _ _ h1 h2 => le_trans h1 h2⟩

/-- `sortImageList` from `ImageListManager.ts`: stable in-place sort with the
comparator selected by `sortBy` ("created", "modified", anything else sorts
by name), then `reverse()` when `sortDescending === true`.  The built-in
stable `Array.prototype.sort` is modelled by the stable
`List.insertionSort`, keyed so that `a` precedes `b` when the source
comparator returns `≤ 0`. -/
def sortImageList (imageList : List PhotoItem) (sortBy : String)
    (sortDescending : Bool) : List PhotoItem :=
  let sortedList :=
    match sortBy with
    | "created" => imageList.insertionSort createdLe
    | "modified" => imageList.insertionSort modifiedLe
    | _ => imageList.insertionSort filenameLe
  if sortDescending = true then sortedList.reverse else sortedList

theorem sortImageList_created_false (l : List PhotoItem) :
    sortImageList l "created" false = l.insertionSort createdLe := rfl

theorem sortImageList_modified_false (l : List PhotoItem) :
    sortImageList l "modified" false = l.insertionSort modifiedLe := rfl

theorem sortImageList_name_false (l : List PhotoItem) :
    sortImageList l "name" false = l.insertionSort filenameLe := rfl

theorem sortImageList_true_eq_reverse (l : List PhotoItem) (sortBy : String) :
    sortImageList l sortBy true = (sortImageList l sortBy false).reverse := by
  simp [sortImageList]

theorem sortImageList_perm (l : List PhotoItem) (sortBy : String) (desc : Bool) :
    (sortImageList l sortBy desc).Perm l := by
  have hasc : (sortImageList l sortBy false).Perm l := by
    simp only [sortImageList]
    rw [if_neg Bool.false_ne_true]
    split <;> exact List.perm_insertionSort _ _
  cases desc
  · exact hasc
  · rw [sortImageList_true_eq_reverse]
    exact (List.reverse_perm _).trans hasc

/-- C6 counterexample: with two items that have equal `created` keys, the
descending sort is the reverse of the ascending pass, so the relative order
of the equal keys is reversed rather than preserved — the claim's
"descending preserves the relative order of equal keys from the ascending
pass" fails at this input. -/
theorem sortImageList_descending_equal_keys_counterexample :
    sortImageList [⟨"a", 5, 1⟩, ⟨"b", 5, 2⟩] "created" true
        = [⟨"b", 5, 2⟩, ⟨"a", 5, 1⟩] ∧
      sortImageList [⟨"a", 5, 1⟩, ⟨"b", 5, 2⟩] "created" false
        = [⟨"a", 5, 1⟩, ⟨"b", 5, 2⟩] ∧
      ([⟨"b", 5, 2⟩, ⟨"a", 5, 1⟩] : List PhotoItem) ≠ [⟨"a", 5, 1⟩, ⟨"b", 5, 2⟩] := by
  refine ⟨?_, ?_, by decide⟩
  · rw [sortImageList_true_eq_reverse, sortImageList_created_false]
    rfl
  · rw [sortImageList_created_false]
    rfl

/-- C6 (amended): the ascending sort is a stable permutation of the input —
elements with equal (or tied) keys keep their original relative order — and
it is sorted by the selected key; the descending flag yields exactly the
reverse of the ascending result (so the relative order of equal keys is
reversed there, not preserved).  The spec's concrete example holds:
`[b, a, a2]` sorts ascending to `a, a2, b` and descending to `b, a2, a`. -/
theorem sortImageList_stable_and_descending_reverse :
    (∀ (l : List PhotoItem) (sortBy : String), (sortImageList l sortBy false).Perm l) ∧
      (∀ (l : List PhotoItem) (a b : PhotoItem), [a, b].Sublist l →
        (createdLe a b → [a, b].Sublist (sortImageList l "created" false)) ∧
          (modifiedLe a b → [a, b].Sublist (sortImageList l "modified" false)) ∧
          (filenameLe a b → [a, b].Sublist (sortImageList l "name" false))) ∧
      (∀ l : List PhotoItem, (sortImageList l "created" false).Sorted createdLe ∧
        (sortImageList l "modified" false).Sorted modifiedLe ∧
        (sortImageList l "name" false).Sorted filenameLe) ∧
      (∀ (l : List PhotoItem) (sortBy : String),
        sortImageList l sortBy true = (sortImageList l sortBy false).reverse) ∧
      sortImageList [⟨"b", 0, 0⟩, ⟨"a", 0, 0⟩, ⟨"a2", 0, 0⟩] "name" false
        = [⟨"a", 0, 0⟩, ⟨"a2", 0, 0⟩, ⟨"b", 0, 0⟩] ∧
      sortImageList [⟨"b", 0, 0⟩, ⟨"a", 0, 0⟩, ⟨"a2", 0, 0⟩] "name" true
        = [⟨"b", 0, 0⟩, ⟨"a2", 0, 0⟩, ⟨"a", 0, 0⟩] := by
  refine ⟨?_, ?_, ?_, sortImageList_true_eq_reverse, ?_, ?_⟩
  · intro l sortBy
    exact sortImageList_perm l sortBy false
  · intro l a b hab
    refine ⟨fun h => ?_, fun h => ?_, fun h => ?_⟩
    · rw [sortImageList_created_false]
      exact List.pair_sublist_insertionSort h hab
    · rw [sortImageList_modified_false]
      exact List.pair_sublist_insertionSort h hab
    · rw [sortImageList_name_false]
      exact List.pair_sublist_insertionSort h hab
  · intro l
    refine ⟨?_, ?_, ?_⟩
    · rw [sortImageList_created_false]
      exact List.sorted_insertionSort _ _
    · rw [sortImageList_modified_false]
      exact List.sorted_insertionSort _ _
    · rw [sortImageList_name_false]
      exact List.sorted_insertionSort _ _
  · rw [sortImageList_name_false]
    rfl
  · rw [sortImageList_true_eq_reverse, sortImageList_name_false]
    rfl

theorem sortImageList_stable_witness :
    ([⟨"x", 1, 2⟩, ⟨"y", 1, 3⟩] : List PhotoItem).Sublist [⟨"x", 1, 2⟩, ⟨"y", 1, 3⟩] ∧
      createdLe ⟨"x", 1, 2⟩ ⟨"y", 1, 3⟩ ∧
      [(⟨"x", 1, 2⟩ : PhotoItem), ⟨"y", 1, 3⟩].Sublist
        (sortImageList [⟨"x", 1, 2⟩, ⟨"y", 1, 3⟩] "created" false) :=
  ⟨List.Sublist.refl _, by decide,
    (sortImageList_stable_and_descending_reverse.2.1
      [⟨"x", 1, 2⟩, ⟨"y", 1, 3⟩] ⟨"x", 1, 2⟩ ⟨"y", 1, 3⟩
      (List.Sublist.refl _)).1 (by decide)⟩

/-- The configuration fields of `ModuleConfig` consumed by
`prepareImageList`. -/
structure ModuleConfig where
  showAllImagesBeforeRestart : Bool
  randomizeImageOrder : Bool
  sortImagesBy : String
  sortImagesDescending : Bool
deriving Repr

/-- State of an `ImageListManager` instance together with the shown-images
tracker file it reads and writes (`filesShownTracker.txt`, modelled as its
list of lines). -/
structure LMState where
  imageList : List PhotoItem
  nextBatchList : List PhotoItem
  alreadyShownSet : List String
  index : Int
  trackerFile : List String
deriving Repr

/-- `readShownImagesTracker`: splits the tracker file into lines and keeps
the lines whose trimmed form is non-empty, i.e. the lines containing at
least one non-whitespace character. -/
def readShownImagesTracker (trackerFile : List String) : List String :=
  trackerFile.filter (fun line => line.data.any (fun c => !c.isWhitespace))

/-- `resetShownImagesTracker`: writes an empty tracker file and clears the
in-memory set. -/
def resetShownImagesTracker (s : LMState) : LMState :=
  { s with trackerFile := [], alreadyShownSet := [] }

/-- `prepareImageList` from `ImageListManager.ts`.  When the
show-all-before-repeating policy is on, the tracker file is (re)read and
already-shown paths are filtered out; if the filter empties a non-empty
source and this is not a preload call, the tracker is reset and the full
source is used again.  The result is then shuffled (when
`randomizeImageOrder`) or sorted, and stored as the next batch (preload) or
as the current list with the cursor reset to `0`. -/
def prepareImageList (s : LMState) (images : List PhotoItem) (config : ModuleConfig)
    (isPreload : Bool) (seed : Nat) (mathRandom : Nat → Nat) :
    List PhotoItem × LMState :=
  let workingList := images
  let s1 := if config.showAllImagesBeforeRestart then
      { s with alreadyShownSet := readShownImagesTracker s.trackerFile }
    else s
  let imageListToUse := if config.showAllImagesBeforeRestart then
      workingList.filter (fun image => !(s1.alreadyShownSet.contains image.path))
    else workingList
  let needReset := config.showAllImagesBeforeRestart && imageListToUse.isEmpty
    && !workingList.isEmpty && !isPreload
  let s2 := if needReset then resetShownImagesTracker s1 else s1
  let listAfterReset := if needReset then workingList else imageListToUse
  let finalImageList := if config.randomizeImageOrder then
      shuffleArray seed mathRandom listAfterReset
    else
      sortImageList listAfterReset config.sortImagesBy config.sortImagesDescending
  if isPreload then
    (finalImageList, { s2 with nextBatchList := finalImageList })
  else
    (finalImageList, { s2 with imageList := finalImageList, index := 0 })

/-- `getNextImage`: `null` when the list is empty or the cursor has reached
the end (signal to load the next batch); otherwise returns the item at the
cursor and post-increments the cursor. -/
def getNextImage (s : LMState) : Option PhotoItem × LMState :=
  if s.imageList.isEmpty then (none, s)
  else if s.index ≥ s.imageList.length then (none, s)
  else (s.imageList.get? s.index.toNat, { s with index := s.index + 1 })

/-- `getPreviousImage`: rewinds the cursor by two (clamped at zero) and then
behaves as `getNextImage`. -/
def getPreviousImage (s : LMState) : Option PhotoItem × LMState :=
  let i := s.index - 2
  getNextImage { s with index := if i < 0 then 0 else i }

/-- `switchToNextBatch`: replaces the current list with the preloaded next
batch and resets the cursor; no-op when no batch is preloaded. -/
def switchToNextBatch (s : LMState) : LMState :=
  if s.nextBatchList.isEmpty then s
  else { s with imageList := s.nextBatchList, nextBatchList := [], index := 0 }

/-- `reset`: rewind the cursor to the start of the current list. -/
def reset (s : LMState) : LMState :=
  { s with index := 0 }

/-- Cursor invariant of the list manager: the index stays between `0` and
the current list length, inclusive. -/
def Inv (s : LMState) : Prop :=
  0 ≤ s.index ∧ s.index ≤ s.imageList.length

instance (s : LMState) : Decidable (Inv s) :=
  inferInstanceAs (Decidable (_ ∧ _))

/-- C4: with the show-all-before-repeating policy on, when filtering out the
already-shown paths empties a non-empty source list and the call is not a
preload call, `prepareImageList` resets the shown tracker (both the
in-memory set and the persisted file) and rebuilds the result from the full
unfiltered source, so the resulting current list is a non-empty permutation
of the input — the slideshow is never left permanently stuck. -/
theorem prepareImageList_forward_progress
    (s : LMState) (images : List PhotoItem) (config : ModuleConfig)
    (seed : Nat) (mathRandom : Nat → Nat)
    (hpolicy : config.showAllImagesBeforeRestart = true)
    (hnonempty : images ≠ [])
    (hfiltered : images.filter
      (fun image => !((readShownImagesTracker s.trackerFile).contains image.path)) = []) :
    (prepareImageList s images config false seed mathRandom).2.trackerFile = [] ∧
      (prepareImageList s images config false seed mathRandom).2.alreadyShownSet = [] ∧
      (prepareImageList s images config false seed mathRandom).1.Perm images ∧
      (prepareImageList s images config false seed mathRandom).1 ≠ [] ∧
      (prepareImageList s images config false seed mathRandom).2.imageList
        = (prepareImageList s images config false seed mathRandom).1 := by
  have hne : images.isEmpty = false := by
    cases images with
    | nil => exact absurd rfl hnonempty
    | cons a as => rfl
  have hfinal : ∀ l : List PhotoItem,
      (if config.randomizeImageOrder then shuffleArray seed mathRandom l
        else sortImageList l config.sortImagesBy config.sortImagesDescending).Perm l := by
    intro l
    split
    · exact shuffleArray_perm seed mathRandom l
    · exact sortImageList_perm l config.sortImagesBy config.sortImagesDescending
  simp only [prepareImageList, hpolicy, if_true, reduceIte, if_neg Bool.false_ne_true,
    hfiltered, resetShownImagesTracker, List.isEmpty_nil, hne, Bool.not_false,
    Bool.and_true, Bool.true_and]
  have hperm := hfinal images
  refine ⟨trivial, trivial, hperm, ?_, trivial⟩
  intro hnil
  rw [hnil] at hperm
  exact hnonempty hperm.symm.eq_nil

theorem prepareImageList_forward_progress_witness :
    (⟨true, false, "name", false⟩ : ModuleConfig).showAllImagesBeforeRestart
        = true ∧
      ([⟨"p1", 0, 0⟩] : List PhotoItem) ≠ [] ∧
      ([⟨"p1", 0, 0⟩] : List PhotoItem).filter
        (fun image => !((readShownImagesTracker ["p1"]).contains image.path)) = [] ∧
      (prepareImageList ⟨[], [], [], 0, ["p1"]⟩ [⟨"p1", 0, 0⟩]
          ⟨true, false, "name", false⟩ false 0 (fun _ => 0)).1 ≠ [] := by
  refine ⟨rfl, by decide, by decide, ?_⟩
  exact (prepareImageList_forward_progress ⟨[], [], [], 0, ["p1"]⟩ [⟨"p1", 0, 0⟩]
    ⟨true, false, "name", false⟩ 0 (fun _ => 0) rfl (by decide) (by decide)).2.2.2.1

theorem getNextImage_inv (s : LMState) (h : Inv s) : Inv (getNextImage s).2 := by
  obtain ⟨h0, hlen⟩ := h
  simp only [getNextImage]
  split_ifs with h1 h2
  · exact ⟨h0, hlen⟩
  · exact ⟨h0, hlen⟩
  · simp only [not_le] at h2
    refine ⟨?_, ?_⟩ <;> (dsimp only; omega)

theorem getPreviousImage_inv (s : LMState) (h : Inv s) : Inv (getPreviousImage s).2 := by
  obtain ⟨h0, hlen⟩ := h
  apply getNextImage_inv
  refine ⟨?_, ?_⟩ <;> (dsimp only [getPreviousImage]; split_ifs <;> omega)

theorem switchToNextBatch_inv (s : LMState) (h : Inv s) : Inv (switchToNextBatch s) := by
  obtain ⟨h0, hlen⟩ := h
  simp only [switchToNextBatch]
  split_ifs
  · exact ⟨h0, hlen⟩
  · exact ⟨le_refl 0, Int.natCast_nonneg _⟩

theorem prepareImageList_inv (s : LMState) (images : List PhotoItem)
    (config : ModuleConfig) (isPreload : Bool) (seed : Nat) (mathRandom : Nat → Nat)
    (h : Inv s) : Inv (prepareImageList s images config isPreload seed mathRandom).2 := by
  obtain ⟨h0, hlen⟩ := h
  simp only [prepareImageList, resetShownImagesTracker]
  split_ifs <;>
    first
      | exact ⟨le_refl 0, Int.natCast_nonneg _⟩
      | exact ⟨h0, hlen⟩

theorem getNextImage_spec (s : LMState) (h : Inv s) :
    ((getNextImage s).1.isSome ↔ s.imageList ≠ [] ∧ s.index < s.imageList.length) ∧
      (s.imageList ≠ [] → s.index < s.imageList.length →
        (getNextImage s).1 = s.imageList.get? s.index.toNat ∧
          (getNextImage s).2.index = s.index + 1 ∧
          (getNextImage s).2.imageList = s.imageList ∧
          (getNextImage s).2.nextBatchList = s.nextBatchList) ∧
      (s.imageList = [] ∨ s.imageList.length ≤ s.index →
        (getNextImage s).1 = none ∧ (getNextImage s).2 = s) := by
  obtain ⟨h0, hlen⟩ := h
  simp only [getNextImage]
  split_ifs with h1 h2
  · rw [List.isEmpty_iff] at h1
    exact ⟨iff_of_false (by simp) (fun hc => absurd h1 hc.1),
      fun hne _ => absurd h1 hne, fun _ => ⟨rfl, rfl⟩⟩
  · simp only [List.isEmpty_iff] at h1
    exact ⟨iff_of_false (by simp) (fun hc => absurd hc.2 (by omega)),
      fun _ hlt => absurd hlt (by omega), fun _ => ⟨rfl, rfl⟩⟩
  · simp only [List.isEmpty_iff] at h1
    simp only [not_le] at h2
    have hlt : s.index.toNat < s.imageList.length := by omega
    have hsome : (s.imageList.get? s.index.toNat).isSome = true := by
      rw [List.get?_eq_getElem?, List.getElem?_eq_getElem hlt]
      rfl
    refine ⟨iff_of_true hsome ⟨h1, h2⟩, fun _ _ => ⟨rfl, rfl, rfl, rfl⟩, fun hcontra => ?_⟩
    rcases hcontra with hnil | hge
    · exact absurd hnil h1
    · exact absurd hge (by omega)

/-- C10 (implicit): the cursor invariant `0 ≤ index ≤ length(current list)`
is preserved by every list-manager operation (`prepareImageList`,
`getNextImage`, `getPreviousImage`, `switchToNextBatch`, `reset`), and
`getNextImage` returns an item and advances the cursor by exactly one
precisely when the current list is non-empty and the cursor is strictly
inside it; otherwise it returns `none` and leaves the state unchanged. -/
theorem listManager_cursor_invariant :
    (∀ s : LMState, Inv s → Inv (getNextImage s).2) ∧
      (∀ s : LMState, Inv s → Inv (getPreviousImage s).2) ∧
      (∀ s : LMState, Inv s → Inv (switchToNextBatch s)) ∧
      (∀ s : LMState, Inv s → Inv (reset s)) ∧
      (∀ (s : LMState) (images : List PhotoItem) (config : ModuleConfig)
          (isPreload : Bool) (seed : Nat) (mathRandom : Nat → Nat),
        Inv s → Inv (prepareImageList s images config isPreload seed mathRandom).2) ∧
      (∀ s : LMState, Inv s →
        (((getNextImage s).1.isSome ↔ s.imageList ≠ [] ∧ s.index < s.imageList.length) ∧
          (s.imageList ≠ [] → s.index < s.imageList.length →
            (getNextImage s).1 = s.imageList.get? s.index.toNat ∧
              (getNextImage s).2.index = s.index + 1 ∧
              (getNextImage s).2.imageList = s.imageList ∧
              (getNextImage s).2.nextBatchList = s.nextBatchList) ∧
          (s.imageList = [] ∨ s.imageList.length ≤ s.index →
            (getNextImage s).1 = none ∧ (getNextImage s).2 = s))) :=
  ⟨getNextImage_inv, getPreviousImage_inv, switchToNextBatch_inv,
    fun _ _ => ⟨le_refl 0, Int.natCast_nonneg _⟩,
    prepareImageList_inv, getNextImage_spec⟩

theorem listManager_cursor_invariant_witness :
    Inv ⟨[⟨"p", 0, 0⟩], [], [], 0, []⟩ ∧
      Inv (getNextImage ⟨[⟨"p", 0, 0⟩], [], [], 0, []⟩).2 :=
  ⟨by decide, listManager_cursor_invariant.1 ⟨[⟨"p", 0, 0⟩], [], [], 0, []⟩ (by decide)⟩

end ImageListManager

namespace SynologyPhotosClient

/-- Value of the JavaScript expression `photo.synologyId || photo.id`: the
`id` built by `processPhotoList` is a number when `spaceId` is `null` and a
string `spaceId_photoId` otherwise. -/
inductive DedupeKey where
  | num (n : Int)
  | str (s : String)
deriving DecidableEq, Repr

/-- A photo as seen by `removeDuplicatePhotos`: the `PhotoItem` produced by
`processPhotoList` carries `synologyId`, `spaceId` and `id` in addition to
the display fields; the fields are optional because the function probes them
through a cast. -/
structure ClientPhoto where
  path : String
  synologyId : Option Int
  spaceId : Option Int
  id : Option DedupeKey
deriving DecidableEq, Repr

/-- The deduplication key `photo.synologyId || photo.id`: JavaScript `||`
falls through when the left operand is falsy, i.e. when `synologyId` is
`undefined` or `0`.  The `spaceId` takes no part in the key. -/
def dedupeKey (photo : ClientPhoto) : Option DedupeKey :=
  match photo.synologyId with
  | some n => if n = 0 then photo.id else some (DedupeKey.num n)
  | none => photo.id

/-- The `filter` loop of `removeDuplicatePhotos` with the mutable `seen` set
made explicit: a photo is kept exactly when its key has not been seen, and a
kept photo adds its key to the set. -/
def removeDuplicatePhotosAux (seen : List (Option DedupeKey)) :
    List ClientPhoto → List ClientPhoto
  | [] => []
  | p :: rest =>
    if dedupeKey p ∈ seen then removeDuplicatePhotosAux seen rest
    else p :: removeDuplicatePhotosAux (dedupeKey p :: seen) rest

/-- `removeDuplicatePhotos` from `SynologyPhotosClient.ts`: keeps the first
photo for each `synologyId || id` key. -/
def removeDuplicatePhotos (photos : List ClientPhoto) : List ClientPhoto :=
  removeDuplicatePhotosAux [] photos

theorem removeDuplicatePhotosAux_sublist :
    ∀ (seen : List (Option DedupeKey)) (photos : List ClientPhoto),
      (removeDuplicatePhotosAux seen photos).Sublist photos
  | _, [] => List.Sublist.refl []
  | seen, p :: rest => by
    simp only [removeDuplicatePhotosAux]
    split
    · exact (removeDuplicatePhotosAux_sublist seen rest).cons p
    · exact (removeDuplicatePhotosAux_sublist (dedupeKey p :: seen) rest).cons₂ p

theorem removeDuplicatePhotosAux_unseen :
    ∀ (seen : List (Option DedupeKey)) (photos : List ClientPhoto),
      ∀ q ∈ removeDuplicatePhotosAux seen photos, dedupeKey q ∉ seen
  | _, [] => by simp [removeDuplicatePhotosAux]
  | seen, p :: rest => by
    simp only [removeDuplicatePhotosAux]
    split
    · exact removeDuplicatePhotosAux_unseen seen rest
    · intro q hq
      rcases List.mem_cons.mp hq with rfl | hq2
      · assumption
      · have := removeDuplicatePhotosAux_unseen (dedupeKey p :: seen) rest q hq2
        intro hmem
        exact this (List.mem_cons_of_mem _ hmem)

theorem removeDuplicatePhotosAux_keys_nodup :
    ∀ (seen : List (Option DedupeKey)) (photos : List ClientPhoto),
      ((removeDuplicatePhotosAux seen photos).map dedupeKey).Nodup
  | _, [] => List.nodup_nil
  | seen, p :: rest => by
    simp only [removeDuplicatePhotosAux]
    split
    · exact removeDuplicatePhotosAux_keys_nodup seen rest
    · rw [List.map_cons, List.nodup_cons]
      refine ⟨?_, removeDuplicatePhotosAux_keys_nodup (dedupeKey p :: seen) rest⟩
      intro hmem
      rcases List.mem_map.mp hmem with ⟨q, hq, hkey⟩
      exact removeDuplicatePhotosAux_unseen (dedupeKey p :: seen) rest q hq
        (hkey ▸ List.mem_cons_self _ _)

theorem removeDuplicatePhotosAux_covers :
    ∀ (seen : List (Option DedupeKey)) (photos : List ClientPhoto),
      ∀ p ∈ photos, dedupeKey p ∈ seen ∨
        ∃ q ∈ removeDuplicatePhotosAux seen photos, dedupeKey q = dedupeKey p
  | _, [] => by simp
  | seen, p' :: rest => by
    intro p hp
    simp only [removeDuplicatePhotosAux]
    rcases List.mem_cons.mp hp with rfl | hprest
    · split
      · left
        assumption
      · right
        exact ⟨p, List.mem_cons_self _ _, rfl⟩
    · split
      · rcases removeDuplicatePhotosAux_covers seen rest p hprest with hs | ⟨q, hq, hk⟩
        · exact Or.inl hs
        · exact Or.inr ⟨q, hq, hk⟩
      · rcases removeDuplicatePhotosAux_covers (dedupeKey p' :: seen) rest p hprest with
          hs | ⟨q, hq, hk⟩
        · rcases List.mem_cons.mp hs with heq | hseen
          · exact Or.inr ⟨p', List.mem_cons_self _ _, heq.symm⟩
          · exact Or.inl hseen
        · exact Or.inr ⟨q, List.mem_cons_of_mem _ hq, hk⟩

theorem removeDuplicatePhotosAux_first :
    ∀ (seen : List (Option DedupeKey)) (photos : List ClientPhoto),
      ∀ q ∈ removeDuplicatePhotosAux seen photos,
        ∃ l1 l2, photos = l1 ++ q :: l2 ∧
          ∀ r ∈ l1, dedupeKey r ∈ seen ∨ dedupeKey r ≠ dedupeKey q
  | _, [] => by simp [removeDuplicatePhotosAux]
  | seen, p :: rest => by
    intro q hq
    simp only [removeDuplicatePhotosAux] at hq
    by_cases hseen : dedupeKey p ∈ seen
    · rw [if_pos hseen] at hq
      rcases removeDuplicatePhotosAux_first seen rest q hq with ⟨l1, l2, hsplit, hfirst⟩
      refine ⟨p :: l1, l2, by rw [hsplit, List.cons_append], ?_⟩
      intro r hr
      rcases List.mem_cons.mp hr with rfl | hr2
      · exact Or.inl hseen
      · exact hfirst r hr2
    · rw [if_neg hseen] at hq
      rcases List.mem_cons.mp hq with rfl | hq2
      · exact ⟨[], rest, rfl, by simp⟩
      · rcases removeDuplicatePhotosAux_first (dedupeKey p :: seen) rest q hq2 with
          ⟨l1, l2, hsplit, hfirst⟩
        have hqkey : dedupeKey q ∉ dedupeKey p :: seen :=
          removeDuplicatePhotosAux_unseen (dedupeKey p :: seen) rest q hq2
        refine ⟨p :: l1, l2, by rw [hsplit, List.cons_append], ?_⟩
        intro r hr
        rcases List.mem_cons.mp hr with rfl | hr2
        · refine Or.inr fun hkey => hqkey ?_
          rw [← hkey]
          exact List.mem_cons_self _ _
        · rcases hfirst r hr2 with hmem | hne
          · rcases List.mem_cons.mp hmem with heq | hs
            · refine Or.inr fun hkey => hqkey ?_
              rw [← hkey, heq]
              exact List.mem_cons_self _ _
            · exact Or.inl hs
          · exact Or.inr hne

/-- C5 counterexample: deduplication keys on `synologyId` alone and keeps
the first occurrence.  Two photos with the same `synologyId` but different
`spaceId` (distinct composite identities) are collapsed to one, and for two
photos with the same composite identity the first-seen, not the last-seen,
occurrence survives. -/
theorem removeDuplicatePhotos_counterexample :
    removeDuplicatePhotos
        [⟨"a", some 1, some 0, some (DedupeKey.str "0_1")⟩,
          ⟨"b", some 1, some 1, some (DedupeKey.str "1_1")⟩]
        = [⟨"a", some 1, some 0, some (DedupeKey.str "0_1")⟩] ∧
      removeDuplicatePhotos
        [⟨"c", some 2, some 0, some (DedupeKey.str "0_2")⟩,
          ⟨"d", some 2, some 0, some (DedupeKey.str "0_2")⟩]
        = [⟨"c", some 2, some 0, some (DedupeKey.str "0_2")⟩] ∧
      ([(⟨"c", some 2, some 0, some (DedupeKey.str "0_2")⟩ : ClientPhoto)]
        ≠ [⟨"d", some 2, some 0, some (DedupeKey.str "0_2")⟩]) := by
  refine ⟨by decide, by decide, by decide⟩

/-- C5 (amended): within a batch, `removeDuplicatePhotos` keeps exactly one
photo per `synologyId || id` key (`spaceId` plays no part), and the kept
photo is the first-seen occurrence of its key: the output is a subsequence
of the input with pairwise-distinct keys that covers every input key, and
every kept photo is preceded in the input only by photos with different
keys. -/
theorem removeDuplicatePhotos_first_seen_per_providerId (photos : List ClientPhoto) :
    (removeDuplicatePhotos photos).Sublist photos ∧
      ((removeDuplicatePhotos photos).map dedupeKey).Nodup ∧
      (∀ p ∈ photos, ∃ q ∈ removeDuplicatePhotos photos, dedupeKey q = dedupeKey p) ∧
      (∀ q ∈ removeDuplicatePhotos photos, ∃ l1 l2, photos = l1 ++ q :: l2 ∧
        ∀ r ∈ l1, dedupeKey r ≠ dedupeKey q) := by
  refine ⟨removeDuplicatePhotosAux_sublist [] photos,
    removeDuplicatePhotosAux_keys_nodup [] photos, ?_, ?_⟩
  · intro p hp
    rcases removeDuplicatePhotosAux_covers [] photos p hp with hs | h
    · simp at hs
    · exact h
  · intro q hq
    rcases removeDuplicatePhotosAux_first [] photos q hq with ⟨l1, l2, hsplit, hfirst⟩
    refine ⟨l1, l2, hsplit, fun r hr => ?_⟩
    rcases hfirst r hr with hmem | hne
    · simp at hmem
    · exact hne

theorem removeDuplicatePhotos_first_seen_witness :
    ((⟨"a", some 1, some 0, some (DedupeKey.str "0_1")⟩ : ClientPhoto)
        ∈ [(⟨"a", some 1, some 0, some (DedupeKey.str "0_1")⟩ : ClientPhoto)]) ∧
      ∃ q ∈ removeDuplicatePhotos
          [(⟨"a", some 1, some 0, some (DedupeKey.str "0_1")⟩ : ClientPhoto)],
        dedupeKey q = dedupeKey ⟨"a", some 1, some 0, some (DedupeKey.str "0_1")⟩ :=
  ⟨List.mem_cons_self _ _,
    (removeDuplicatePhotos_first_seen_per_providerId
      [⟨"a", some 1, some 0, some (DedupeKey.str "0_1")⟩]).2.2.1
      ⟨"a", some 1, some 0, some (DedupeKey.str "0_1")⟩ (List.mem_cons_self _ _)⟩

end SynologyPhotosClient

namespace ImageCache

/-- One on-disk cache file as seen by `calculateCacheSize`/`evictOldFiles`:
file name, byte size and modification time (epoch milliseconds). -/
structure CacheFile where
  name : String
  size : Nat
  mtime : Nat
deriving DecidableEq, Repr

/-- The cache state mutated by `set` and `evictOldFiles`: directory listing,
running size total (`currentCacheSize`, an accounting value that may drift
from the on-disk truth) and the configured maximum. -/
structure CacheState where
  files : List CacheFile
  currentCacheSize : Int
  maxCacheSize : Nat
deriving DecidableEq, Repr

/-- The protection test in the eviction loop:
`file.name === 'photo_metadata.json' || file.name.endsWith('photo_metadata.json')`
(`endsWith` modelled on the character list). -/
def isProtected (name : String) : Bool :=
  name == "photo_metadata.json" || ("photo_metadata.json".data).isSuffixOf name.data

/-- Ordering used to sort the directory snapshot:
`(a, b) => a.mtime.getTime() - b.mtime.getTime()` ascending. -/
def mtimeLe (a b : CacheFile) : Prop :=
  a.mtime ≤ b.mtime

instance : DecidableRel mtimeLe := fun a b =>
  inferInstanceAs (Decidable (a.mtime ≤ b.mtime))

/-- The eviction loop of `evictOldFiles`: walks the mtime-sorted snapshot;
stops as soon as `currentCacheSize <= targetSize` (the 90% target,
`maxCacheSize * 0.9`, modelled exactly as `size * 10 ≤ max * 9`); skips the
protected metadata file; otherwise unlinks the file and subtracts its size
from the running total. -/
def evictLoop (maxCacheSize : Nat) :
    List CacheFile → List CacheFile → Int → List CacheFile × Int
  | [], files, size => (files, size)
  | f :: rest, files, size =>
    if size * 10 ≤ (maxCacheSize : Int) * 9 then (files, size)
    else if isProtected f.name then evictLoop maxCacheSize rest files size
    else evictLoop maxCacheSize rest
      (files.filter (fun g => g.name != f.name)) (size - f.size)

/-- `evictOldFiles` from `ImageCache.ts`: no-op unless the running total
exceeds the configured maximum; otherwise stats the cache directory, sorts
by modification time ascending and runs the deletion loop down to the 90%
target. -/
def evictOldFiles (s : CacheState) : CacheState :=
  if s.currentCacheSize ≤ (s.maxCacheSize : Int) then s
  else
    let fileStats := s.files.insertionSort mtimeLe
    let r := evictLoop s.maxCacheSize fileStats s.files s.currentCacheSize
    { s with files := r.1, currentCacheSize := r.2 }

/-- The synchronous part of `set`: writes the blob under the derived key
(replacing any file of the same name) and adds the byte size to the running
total.  The source then fires `evictOldFiles()` asynchronously whenever
`currentCacheSize > maxCacheSize`. -/
def cacheSet (s : CacheState) (name : String) (dataSize : Nat) (mtime : Nat) :
    CacheState :=
  { s with
    files := s.files.filter (fun g => g.name != name) ++ [⟨name, dataSize, mtime⟩],
    currentCacheSize := s.currentCacheSize + dataSize }

/-- Condition under which `set` triggers the asynchronous eviction. -/
def needsEviction (s : CacheState) : Prop :=
  (s.maxCacheSize : Int) < s.currentCacheSize

instance (s : CacheState) : Decidable (needsEviction s) :=
  inferInstanceAs (Decidable (_ < _))

theorem evictLoop_protected (maxCacheSize : Nat) :
    ∀ (snapshot files : List CacheFile) (size : Int) (f : CacheFile),
      f ∈ files → isProtected f.name = true →
      f ∈ (evictLoop maxCacheSize snapshot files size).1
  | [], _, _, _, hf, _ => hf
  | g :: rest, files, size, f, hf, hprot => by
    simp only [evictLoop]
    split_ifs with hbreak hskip
    · exact hf
    · exact evictLoop_protected maxCacheSize rest files size f hf hprot
    · refine evictLoop_protected maxCacheSize rest _ _ f ?_ hprot
      refine List.mem_filter.mpr ⟨hf, ?_⟩
      simp only [bne_iff_ne, ne_eq]
      intro hname
      rw [hname] at hprot
      exact hskip (by simp [hprot])

theorem filter_ne_name_eq_erase :
    ∀ (files : List CacheFile) (f : CacheFile),
      (files.map (·.name)).Nodup → f ∈ files →
      files.filter (fun g => g.name != f.name) = files.erase f
  | [], f, _, hf => absurd hf (List.not_mem_nil f)
  | g :: gs, f, hnodup, hf => by
    rw [List.map_cons, List.nodup_cons] at hnodup
    rcases List.mem_cons.mp hf with rfl | hfgs
    · rw [List.filter_cons, List.erase_cons_head]
      simp only [bne_self_eq_false, Bool.false_eq_true, if_false]
      apply List.filter_eq_self.mpr
      intro a ha
      simp only [bne_iff_ne, ne_eq]
      intro hname
      exact hnodup.1 (hname ▸ List.mem_map_of_mem (·.name) ha)
    · have hne : g ≠ f := by
        rintro rfl
        exact hnodup.1 (List.mem_map_of_mem (·.name) hfgs)
      have hnamene : g.name ≠ f.name := by
        intro hname
        exact hnodup.1 (hname ▸ List.mem_map_of_mem (·.name) hfgs)
      rw [List.filter_cons, List.erase_cons_tail]
      · simp only [bne_iff_ne, ne_eq, hnamene, not_false_eq_true, if_true]
        rw [filter_ne_name_eq_erase gs f hnodup.2 hfgs]
      · simpa using hne

theorem evictLoop_le (maxCacheSize : Nat) :
    ∀ (snapshot files : List CacheFile) (size : Int),
      snapshot.Perm files →
      size = (files.map (fun x => (x.size : Int))).sum →
      (∀ f ∈ snapshot, isProtected f.name = false) →
      ((files.map (·.name)).Nodup) →
      (evictLoop maxCacheSize snapshot files size).2 * 10 ≤ (maxCacheSize : Int) * 9
  | [], files, size, hperm, hsum, _, _ => by
    have : files = [] := (List.Perm.nil_eq hperm).symm
    subst this
    simp only [evictLoop, hsum, List.map_nil, List.sum_nil]
    positivity
  | f :: rest, files, size, hperm, hsum, hnp, hnodup => by
    simp only [evictLoop]
    split_ifs with hbreak hskip
    · exact hbreak
    · rw [hnp f (List.mem_cons_self _ _)] at hskip
      simp at hskip
    · have hf : f ∈ files := hperm.mem_iff.mp (List.mem_cons_self _ _)
      rw [filter_ne_name_eq_erase files f hnodup hf]
      have hperm2 : files.Perm (f :: files.erase f) := List.perm_cons_erase hf
      have hrest : rest.Perm (files.erase f) :=
        (List.Perm.cons_inv (hperm.trans hperm2))
      have hsum2 : size - f.size
          = ((files.erase f).map (fun x => (x.size : Int))).sum := by
        have hs := (hperm2.map (fun x => (x.size : Int))).sum_eq
        rw [List.map_cons, List.sum_cons] at hs
        rw [hsum, hs]
        ring
      have hnodup2 : ((files.erase f).map (·.name)).Nodup :=
        ((files.erase_sublist f).map (·.name)).nodup hnodup
      exact evictLoop_le maxCacheSize rest (files.erase f) (size - f.size)
        hrest hsum2 (fun g hg => hnp g (List.mem_cons_of_mem _ hg)) hnodup2

theorem evictLoop_drop (maxCacheSize : Nat) :
    ∀ (snapshot files : List CacheFile) (size : Int),
      snapshot.Perm files →
      (∀ f ∈ snapshot, isProtected f.name = false) →
      ((files.map (·.name)).Nodup) →
      ∃ k, (evictLoop maxCacheSize snapshot files size).1.Perm (snapshot.drop k)
  | [], _, _, hperm, _, _ => ⟨0, hperm.symm⟩
  | f :: rest, files, size, hperm, hnp, hnodup => by
    simp only [evictLoop]
    split_ifs with hbreak hskip
    · exact ⟨0, hperm.symm⟩
    · rw [hnp f (List.mem_cons_self _ _)] at hskip
      simp at hskip
    · have hf : f ∈ files := hperm.mem_iff.mp (List.mem_cons_self _ _)
      rw [filter_ne_name_eq_erase files f hnodup hf]
      have hperm2 : files.Perm (f :: files.erase f) := List.perm_cons_erase hf
      have hrest : rest.Perm (files.erase f) :=
        List.Perm.cons_inv (hperm.trans hperm2)
      have hnodup2 : ((files.erase f).map (·.name)).Nodup :=
        ((files.erase_sublist f).map (·.name)).nodup hnodup
      rcases evictLoop_drop maxCacheSize rest (files.erase f) (size - f.size)
        hrest (fun g hg => hnp g (List.mem_cons_of_mem _ hg)) hnodup2 with ⟨k, hk⟩
      exact ⟨k + 1, hk⟩

/-- C1: the eviction pass never deletes the protected `photo_metadata.json`;
whenever the running total exceeds the configured maximum (and the directory
data is consistent: total equals the sum of the on-disk sizes, names are
distinct, no protected file present) it deletes oldest-by-mtime files until
the total is at most 90% of the maximum; the survivors are always a suffix
of the mtime-ascending order — i.e. the deleted files are the oldest ones;
and in the concrete scenario —
`maxCacheSize = 10MB`, five 3MB entries inserted sequentially — the eviction
triggered after the fifth insertion removes exactly the two oldest-by-mtime
entries, leaving exactly 9MB on disk (≤ the 9MB target). -/
theorem evictOldFiles_eviction_claim :
    (∀ (s : CacheState) (f : CacheFile), f ∈ s.files → isProtected f.name = true →
      f ∈ (evictOldFiles s).files) ∧
      (∀ s : CacheState,
        (s.maxCacheSize : Int) < s.currentCacheSize →
        s.currentCacheSize = (s.files.map (fun x => (x.size : Int))).sum →
        (∀ f ∈ s.files, isProtected f.name = false) →
        ((s.files.map (·.name)).Nodup) →
        (evictOldFiles s).currentCacheSize * 10 ≤ (s.maxCacheSize : Int) * 9) ∧
      (∀ s : CacheState,
        (∀ f ∈ s.files, isProtected f.name = false) →
        ((s.files.map (·.name)).Nodup) →
        ∃ k, (evictOldFiles s).files.Perm
          ((s.files.insertionSort mtimeLe).drop k)) ∧
      (needsEviction
          (cacheSet (cacheSet (cacheSet (cacheSet (cacheSet ⟨[], 0, 10485760⟩
            "img1.jpg" 3145728 1) "img2.jpg" 3145728 2) "img3.jpg" 3145728 3)
            "img4.jpg" 3145728 4) "img5.jpg" 3145728 5) ∧
        (evictOldFiles
          (cacheSet (cacheSet (cacheSet (cacheSet (cacheSet ⟨[], 0, 10485760⟩
            "img1.jpg" 3145728 1) "img2.jpg" 3145728 2) "img3.jpg" 3145728 3)
            "img4.jpg" 3145728 4) "img5.jpg" 3145728 5)).files
          = [⟨"img3.jpg", 3145728, 3⟩, ⟨"img4.jpg", 3145728, 4⟩,
              ⟨"img5.jpg", 3145728, 5⟩] ∧
        (evictOldFiles
          (cacheSet (cacheSet (cacheSet (cacheSet (cacheSet ⟨[], 0, 10485760⟩
            "img1.jpg" 3145728 1) "img2.jpg" 3145728 2) "img3.jpg" 3145728 3)
            "img4.jpg" 3145728 4) "img5.jpg" 3145728 5)).currentCacheSize
          = 9437184 ∧
        (9437184 : Int) ≤ 9 * 1024 * 1024) := by
  refine ⟨?_, ?_, ?_, by decide, by decide, by decide, by decide⟩
  · intro s f hf hprot
    unfold evictOldFiles
    split_ifs
    · exact hf
    · dsimp only
      exact evictLoop_protected s.maxCacheSize _ s.files s.currentCacheSize f hf hprot
  · intro s hbig hsum hnp hnodup
    unfold evictOldFiles
    rw [if_neg (not_le.mpr hbig)]
    dsimp only
    refine evictLoop_le s.maxCacheSize (s.files.insertionSort mtimeLe) s.files
      s.currentCacheSize (List.perm_insertionSort _ _) hsum ?_ hnodup
    intro f hf
    exact hnp f ((List.perm_insertionSort mtimeLe s.files).mem_iff.mp hf)
  · intro s hnp hnodup
    unfold evictOldFiles
    split_ifs
    · exact ⟨0, (List.perm_insertionSort mtimeLe s.files).symm⟩
    · dsimp only
      refine evictLoop_drop s.maxCacheSize (s.files.insertionSort mtimeLe) s.files
        s.currentCacheSize (List.perm_insertionSort _ _) ?_ hnodup
      intro f hf
      exact hnp f ((List.perm_insertionSort mtimeLe s.files).mem_iff.mp hf)

theorem evictOldFiles_eviction_witness :
    ((10 : Int) < 12 ∧
        (12 : Int) = (([⟨"a.jpg", 12, 0⟩] : List CacheFile).map
          (fun x => (x.size : Int))).sum ∧
        (∀ f ∈ ([⟨"a.jpg", 12, 0⟩] : List CacheFile), isProtected f.name = false) ∧
        ((([⟨"a.jpg", 12, 0⟩] : List CacheFile).map (·.name)).Nodup)) ∧
      (evictOldFiles ⟨[⟨"a.jpg", 12, 0⟩], 12, 10⟩).currentCacheSize * 10
        ≤ (10 : Int) * 9 :=
  ⟨⟨by decide, by decide, by decide, by decide⟩,
    evictOldFiles_eviction_claim.2.1 ⟨[⟨"a.jpg", 12, 0⟩], 12, 10⟩
      (by decide) (by decide) (by decide) (by decide)⟩

end ImageCache

namespace ExifExtractor

/-- One record of the centralized metadata database (`PhotoMetadataEntry`):
identity, location string, capture date, and the two address fields filled
in later by geocoding.  Optional string fields are `Option String`, with JS
truthiness `some s, s ≠ ""`. -/
structure PhotoMetadataEntry where
  synologyId : Int
  spaceId : Option Int
  location : Option String
  captureDate : Option String
  FullAddress : Option String
  ShortAddress : Option String
deriving DecidableEq, Repr

/-- The centralized metadata database (`PhotoMetadataDatabase`): a JS object
keyed by the string `synologyId_spaceId`, modelled as an association list. -/
abbrev MetadataDb := List (String × PhotoMetadataEntry)

/-- Property lookup `database[key]`. -/
def dbFind (db : MetadataDb) (key : String) : Option PhotoMetadataEntry :=
  (List.find? (fun kv => kv.1 == key) db).map (·.2)

/-- Property insertion `database[key] = entry` for a key not yet present. -/
def dbInsert (db : MetadataDb) (key : String) (entry : PhotoMetadataEntry) :
    MetadataDb :=
  db ++ [(key, entry)]

/-- JS truthiness of an optional string: present and non-empty. -/
def truthyStr : Option String → Bool
  | none => false
  | some s => s != ""

/-- JS `!s.trim()`: the string is empty or consists only of whitespace. -/
def isBlank (s : String) : Bool :=
  s.data.all (·.isWhitespace)

/-- `loadMetadataDatabase` from `ExifExtractor.ts`.  `readMain`/`readBackup`
are the results of reading the database file and its `.backup` sibling
(`none` = the read failed), and `parse` is `JSON.parse` (`none` = it threw).
The source returns the empty database when the main file is missing or
blank, the parsed main content when it parses, otherwise the parsed backup
content when the backup exists, is non-blank, and parses, and the empty
database in every remaining case — it never raises. -/
def loadMetadataDatabase (readMain readBackup : Option String)
    (parse : String → Option MetadataDb) : MetadataDb :=
  match readMain with
  | none => []
  | some data =>
    if isBlank data then []
    else
      match parse data with
      | some db => db
      | none =>
        match readBackup with
        | none => []
        | some backupData =>
          if isBlank backupData then []
          else
            match parse backupData with
            | some backupDb => backupDb
            | none => []

/-- The three file-system paths touched by `saveMetadataDatabase`: the real
database file, its `.backup` sibling and its `.tmp` sibling (`none` = the
path does not exist). -/
structure MetaFS where
  main : Option String
  backup : Option String
  tmp : Option String
deriving DecidableEq, Repr

/-- Outcome of the `fsPromises.writeFile(tempPath, jsonData)` call: it either
completes, or fails part-way leaving arbitrary partial content (possibly
nothing) at the temporary path. -/
inductive TmpWriteOutcome where
  | ok
  | failed (leftover : Option String)
deriving DecidableEq, Repr

/-- Failure injection for one run of `saveMetadataDatabase`: whether the
best-effort backup copy succeeds, how the temp write goes, and whether the
cleanup `unlink` of the temp file succeeds after a failure. -/
structure SaveScenario where
  backupOk : Bool
  tmpWrite : TmpWriteOutcome
  cleanupOk : Bool
deriving DecidableEq, Repr

/-- `saveMetadataDatabase` from `ExifExtractor.ts`: best-effort copy of the
existing file to the backup path, write the serialized database to the
`.tmp` path, then atomically `rename` the temporary path over the real path.
On a write failure the catch block tries to unlink the temporary file and
returns without renaming. -/
def saveMetadataDatabase (fs : MetaFS) (jsonData : String) (sc : SaveScenario) :
    MetaFS :=
  let fs1 :=
    match fs.main with
    | some content => if sc.backupOk then { fs with backup := some content } else fs
    | none => fs
  match sc.tmpWrite with
  | .ok =>
    let fs2 := { fs1 with tmp := some jsonData }
    { fs2 with main := some jsonData, tmp := none }
  | .failed leftover =>
    let fs2 := { fs1 with tmp := leftover }
    if sc.cleanupOk then { fs2 with tmp := none } else fs2

/-- C2: `saveMetadataDatabase` writes the new content to the temporary
sibling path and then renames it over the real path, so when the temp write
fails at any point before the rename (leaving any partial content), the
previously existing database file is untouched — and therefore exactly as
parsable as before; when the write succeeds, the real path holds exactly
the full new content.  A reader never observes a half-written file at the
real path. -/
theorem saveMetadataDatabase_atomic (fs : MetaFS) (jsonData : String)
    (backupOk cleanupOk : Bool) (leftover : Option String)
    (parse : String → Option MetadataDb) :
    (saveMetadataDatabase fs jsonData ⟨backupOk, .failed leftover, cleanupOk⟩).main
        = fs.main ∧
      ((saveMetadataDatabase fs jsonData
          ⟨backupOk, .failed leftover, cleanupOk⟩).main.map parse)
        = fs.main.map parse ∧
      (saveMetadataDatabase fs jsonData ⟨backupOk, .ok, cleanupOk⟩).main
        = some jsonData := by
  have h1 : (saveMetadataDatabase fs jsonData
      ⟨backupOk, .failed leftover, cleanupOk⟩).main = fs.main := by
    unfold saveMetadataDatabase
    cases hm : fs.main <;> (dsimp only; try split_ifs) <;> simp [hm]
  exact ⟨h1, by rw [h1], rfl⟩

/-- A sample database entry used in concrete instantiations. -/
def sampleEntry : PhotoMetadataEntry :=
  ⟨1, none, none, none, none, none⟩

/-- C8 counterexample: when the main database file exists but is empty, the
source returns the empty database immediately and never consults the backup
— here the backup holds a perfectly parsable non-empty database, the claim
says the backup is attempted (which would yield that database), yet the
result is empty. -/
theorem loadMetadataDatabase_blank_skips_backup_counterexample :
    loadMetadataDatabase (some "") (some "B")
        (fun s => if s = "B" then some [("k", sampleEntry)] else none) = [] ∧
      (fun s : String => if s = "B" then some [("k", sampleEntry)] else none) "B"
        = some [("k", sampleEntry)] ∧
      ([("k", sampleEntry)] : MetadataDb) ≠ [] := by
  refine ⟨rfl, by simp, by simp⟩

/-- C8 (amended): `loadMetadataDatabase` is a total function (never raises)
with this cascade: a missing main file yields the empty database; a blank
main file yields the empty database immediately (the backup is *not*
consulted); an unparsable non-blank main file falls back to the backup,
which yields its parsed content when it exists, is non-blank and parses, and
the empty database in every other case. -/
theorem loadMetadataDatabase_total_fallback (readMain readBackup : Option String)
    (parse : String → Option MetadataDb) :
    (readMain = none → loadMetadataDatabase readMain readBackup parse = []) ∧
      (∀ d, readMain = some d → isBlank d = true →
        loadMetadataDatabase readMain readBackup parse = []) ∧
      (∀ d db, readMain = some d → isBlank d = false → parse d = some db →
        loadMetadataDatabase readMain readBackup parse = db) ∧
      (∀ d, readMain = some d → isBlank d = false → parse d = none →
        readBackup = none → loadMetadataDatabase readMain readBackup parse = []) ∧
      (∀ d b, readMain = some d → isBlank d = false → parse d = none →
        readBackup = some b → isBlank b = true →
        loadMetadataDatabase readMain readBackup parse = []) ∧
      (∀ d b bdb, readMain = some d → isBlank d = false → parse d = none →
        readBackup = some b → isBlank b = false → parse b = some bdb →
        loadMetadataDatabase readMain readBackup parse = bdb) ∧
      (∀ d b, readMain = some d → isBlank d = false → parse d = none →
        readBackup = some b → isBlank b = false → parse b = none →
        loadMetadataDatabase readMain readBackup parse = []) := by
  refine ⟨?_, ?_, ?_, ?_, ?_, ?_, ?_⟩
  · rintro rfl
    rfl
  · rintro d rfl hblank
    simp [loadMetadataDatabase, hblank]
  · rintro d db rfl hblank hparse
    simp [loadMetadataDatabase, hblank, hparse]
  · rintro d rfl hblank hparse rfl
    simp [loadMetadataDatabase, hblank, hparse]
  · rintro d b rfl hblank hparse rfl hblankb
    simp [loadMetadataDatabase, hblank, hparse, hblankb]
  · rintro d b bdb rfl hblank hparse rfl hblankb hparseb
    simp [loadMetadataDatabase, hblank, hparse, hblankb, hparseb]
  · rintro d b rfl hblank hparse rfl hblankb hparseb
    simp [loadMetadataDatabase, hblank, hparse, hblankb, hparseb]

theorem loadMetadataDatabase_total_fallback_witness :
    (some "D" = some "D" ∧ isBlank "D" = false ∧
        (fun s : String => if s = "D" then some [("k", sampleEntry)] else none) "D"
          = some [("k", sampleEntry)]) ∧
      loadMetadataDatabase (some "D") none
        (fun s => if s = "D" then some [("k", sampleEntry)] else none)
        = [("k", sampleEntry)] :=
  ⟨⟨rfl, by decide, by simp⟩,
    (loadMetadataDatabase_total_fallback (some "D") none
      (fun s => if s = "D" then some [("k", sampleEntry)] else none)).2.2.1
      "D" [("k", sampleEntry)] rfl (by decide) (by simp)⟩

/-- Latitude/longitude pair produced by `parseLocation`.  JavaScript float
values are modelled abstractly (by `Int` stand-ins produced by the abstract
`parseFloat` parameter); only parse success/failure and the identity of the
parsed values matter to the pipeline. -/
structure Coords where
  lat : Int
  lon : Int
deriving DecidableEq, Repr

/-- A pending reverse-geocode request: target database key plus
coordinates. -/
structure GeocodingTask where
  key : String
  lat : Int
  lon : Int
deriving DecidableEq, Repr

/-- The two fields of `ExifMetadata` consumed by `savePhotoMetadata`. -/
structure ExifMetadata where
  location : Option String
  captureDate : Option String
deriving DecidableEq, Repr

/-- JavaScript `s.trim()` on a character list. -/
def trimChars (cs : List Char) : List Char :=
  ((cs.dropWhile (·.isWhitespace)).reverse.dropWhile (·.isWhitespace)).reverse

/-- JavaScript `s.split(',')` on a character list. -/
def splitCommaChars : List Char → List (List Char)
  | [] => [[]]
  | c :: cs =>
    let rest := splitCommaChars cs
    if c = ',' then [] :: rest
    else
      match rest with
      | [] => [[c]]
      | p :: ps => (c :: p) :: ps

/-- `parseLocation` from `ExifExtractor.ts`: split on commas, trim the
parts, require exactly two parts, and parse both as floats
(`Number.parseFloat` + `isNaN` modelled by the abstract `parseFloat`
parameter returning `none` for NaN). -/
def parseLocation (parseFloat : List Char → Option Int) (location : String) :
    Option Coords :=
  match (splitCommaChars location.data).map trimChars with
  | [p1, p2] =>
    match parseFloat p1, parseFloat p2 with
    | some lat, some lon => some ⟨lat, lon⟩
    | _, _ => none
  | _ => none

/-- The database key `` `${synologyId}_${spaceId || 0}` ``; `spaceId || 0`
is `0` for `null` and for `0`, i.e. `spaceId.getD 0`. -/
def mkKey (synologyId : Int) (spaceId : Option Int) : String :=
  toString synologyId ++ "_" ++ toString (spaceId.getD 0)

/-- The observable outcome of one `savePhotoMetadata` call: the database
content afterwards, whether `saveMetadataDatabase` was called, and the
geocoding task enqueued (if any). -/
structure SaveOutcome where
  database : MetadataDb
  saved : Bool
  enqueued : Option GeocodingTask
deriving DecidableEq, Repr

/-- `savePhotoMetadata` from `ExifExtractor.ts`: returns immediately when
the incoming metadata carries neither a location nor a capture date; when
the key already exists, performs no save and enqueues geocoding only when
the existing record has a (truthy) location, no full address, and the
location parses; otherwise inserts a record carrying only identity,
location and capture date, persists, and enqueues geocoding when the
incoming location is present and parses. -/
def savePhotoMetadata (db : MetadataDb) (synologyId : Int) (spaceId : Option Int)
    (metadata : ExifMetadata) (parseFloat : List Char → Option Int) : SaveOutcome :=
  if !truthyStr metadata.location && !truthyStr metadata.captureDate then
    ⟨db, false, none⟩
  else
    let key := mkKey synologyId spaceId
    match dbFind db key with
    | some existingEntry =>
      let enqueued :=
        if truthyStr existingEntry.location && !truthyStr existingEntry.FullAddress then
          (parseLocation parseFloat (existingEntry.location.getD "")).map
            (fun c => GeocodingTask.mk key c.lat c.lon)
        else none
      ⟨db, false, enqueued⟩
    | none =>
      let entry : PhotoMetadataEntry :=
        ⟨synologyId, spaceId, metadata.location, metadata.captureDate, none, none⟩
      let enqueued :=
        if truthyStr metadata.location then
          (parseLocation parseFloat (metadata.location.getD "")).map
            (fun c => GeocodingTask.mk key c.lat c.lon)
        else none
      ⟨dbInsert db key entry, true, enqueued⟩

/-- C9 counterexample: the key `1_0` exists with a parseable location and no
full address, so the claim requires a geocoding task to be enqueued — but
the incoming metadata carries neither location nor capture date, so the
source returns before even loading the database, and nothing is enqueued. -/
theorem savePhotoMetadata_counterexample :
    savePhotoMetadata [("1_0", ⟨1, some 0, some "1, 2", none, none, none⟩)]
        1 (some 0) ⟨none, none⟩ (fun _ => some 0)
      = ⟨[("1_0", ⟨1, some 0, some "1, 2", none, none, none⟩)], false, none⟩ ∧
      dbFind [("1_0", ⟨1, some 0, some "1, 2", none, none, none⟩)] (mkKey 1 (some 0))
        = some ⟨1, some 0, some "1, 2", none, none, none⟩ ∧
      truthyStr (some "1, 2") = true ∧
      truthyStr (none : Option String) = false ∧
      (parseLocation (fun _ => some 0) "1, 2").isSome = true := by
  refine ⟨by decide, by decide, by decide, by decide, by decide⟩

/-- C9 (amended): provided the incoming metadata carries a location or a
capture date (otherwise the call does nothing at all): for an existing key
the database is unchanged, no save is performed, and a geocoding task is
enqueued exactly when the existing record has a truthy location that parses
to coordinates and no full address; for a new key, a record containing only
identity, location and capture date is inserted and persisted, and a task is
enqueued exactly when the incoming location is truthy and parses. -/
theorem savePhotoMetadata_spec (db : MetadataDb) (synologyId : Int)
    (spaceId : Option Int) (metadata : ExifMetadata)
    (parseFloat : List Char → Option Int) :
    (truthyStr metadata.location = false → truthyStr metadata.captureDate = false →
      savePhotoMetadata db synologyId spaceId metadata parseFloat = ⟨db, false, none⟩) ∧
      (∀ e, (truthyStr metadata.location = true ∨ truthyStr metadata.captureDate = true) →
        dbFind db (mkKey synologyId spaceId) = some e →
        (savePhotoMetadata db synologyId spaceId metadata parseFloat).database = db ∧
          (savePhotoMetadata db synologyId spaceId metadata parseFloat).saved = false ∧
          (savePhotoMetadata db synologyId spaceId metadata parseFloat).enqueued.isSome
            = (truthyStr e.location && !truthyStr e.FullAddress
                && (parseLocation parseFloat (e.location.getD "")).isSome)) ∧
      ((truthyStr metadata.location = true ∨ truthyStr metadata.captureDate = true) →
        dbFind db (mkKey synologyId spaceId) = none →
        (savePhotoMetadata db synologyId spaceId metadata parseFloat).database
            = dbInsert db (mkKey synologyId spaceId)
                ⟨synologyId, spaceId, metadata.location, metadata.captureDate, none, none⟩ ∧
          (savePhotoMetadata db synologyId spaceId metadata parseFloat).saved = true ∧
          (savePhotoMetadata db synologyId spaceId metadata parseFloat).enqueued.isSome
            = (truthyStr metadata.location
                && (parseLocation parseFloat (metadata.location.getD "")).isSome)) := by
  have hguard : ∀ (h : truthyStr metadata.location = true ∨
      truthyStr metadata.captureDate = true),
      (!truthyStr metadata.location && !truthyStr metadata.captureDate) = false := by
    rintro (h | h) <;> simp [h]
  refine ⟨?_, ?_, ?_⟩
  · intro h1 h2
    simp [savePhotoMetadata, h1, h2]
  · intro e hdisj hfind
    simp only [savePhotoMetadata, hguard hdisj, Bool.false_eq_true, if_false, hfind]
    refine ⟨by trivial, by trivial, ?_⟩
    dsimp only
    split_ifs with hcond
    · simp [hcond, Option.isSome_map]
    · have habf : (truthyStr e.location && !truthyStr e.FullAddress) = false :=
        Bool.eq_false_iff.mpr hcond
      simp [habf]
  · intro hdisj hfind
    simp only [savePhotoMetadata, hguard hdisj, Bool.false_eq_true, if_false, hfind]
    refine ⟨by trivial, by trivial, ?_⟩
    dsimp only
    split_ifs with hcond
    · simp [hcond, Option.isSome_map]
    · simp [Bool.eq_false_iff.mpr hcond]

theorem savePhotoMetadata_spec_witness :
    (truthyStr (some "1, 2") = true ∨ truthyStr (none : Option String) = true) ∧
      dbFind [] (mkKey 1 none) = none ∧
      (savePhotoMetadata [] 1 none ⟨some "1, 2", none⟩ (fun _ => some 0)).database
        = dbInsert [] (mkKey 1 none) ⟨1, none, some "1, 2", none, none, none⟩ ∧
      (savePhotoMetadata [] 1 none ⟨some "1, 2", none⟩ (fun _ => some 0)).saved = true :=
  ⟨Or.inl (by decide), by decide,
    ((savePhotoMetadata_spec [] 1 none ⟨some "1, 2", none⟩
      (fun _ => some 0)).2.2 (Or.inl (by decide)) (by decide)).1,
    ((savePhotoMetadata_spec [] 1 none ⟨some "1, 2", none⟩
      (fun _ => some 0)).2.2 (Or.inl (by decide)) (by decide)).2.1⟩

/-- Classification of one `reverseGeocode` call's outcome, following the
branches of the source: HTTP 4xx, empty body, an `error` field in the
payload, a payload with `display_name` (success), a well-formed payload with
neither `error` nor `display_name`, or a thrown error (timeout/network). -/
inductive GeoResponse where
  | success
  | httpError4xx
  | emptyData
  | errorField
  | noDisplayName
  | exception
deriving DecidableEq, Repr

/-- Whether the source updates `lastGeocodingRequestTime` on that outcome:
every branch sets it to `Date.now()` — the 4xx branch, the empty-body
branch, the `error`-field branch, the success branch, and the catch block
("Still update to prevent rapid retries") — except the fall-through branch
for a payload without `display_name`, which returns `null` without touching
the timestamp. -/
def updatesLastRequestTime : GeoResponse → Bool
  | .noDisplayName => false
  | _ => true

/-- The rate limit `geocodingRateLimitMs = 5000` (5 seconds between
requests). -/
def geocodingRateLimitMs : Nat := 5000

/-- One geocoding task as drained by `processGeocodingQueue`: the network
round-trip latency of its Nominatim call and the outcome. -/
structure GeoCall where
  latency : Nat
  response : GeoResponse
deriving DecidableEq, Repr

/-- Timing of the serial drain loop of `processGeocodingQueue`, which runs
the queued tasks strictly one after another.  Each task runs
`reverseGeocode`: with `now` the current clock, if
`now - lastGeocodingRequestTime < 5000` it waits out the difference, so the
request is issued at `max now (last + 5000)`; the response arrives
`latency` later, and `lastGeocodingRequestTime` is set to the response
processing time on every outcome except `noDisplayName`.  Returns the issue
timestamps of the calls in order. -/
def runGeocodingQueue : Nat → Nat → List GeoCall → List Nat
  | _, _, [] => []
  | lastRequestTime, clock, call :: rest =>
    let issueTime :=
      if clock < lastRequestTime + geocodingRateLimitMs
        then lastRequestTime + geocodingRateLimitMs else clock
    let responseTime := issueTime + call.latency
    let newLast :=
      if updatesLastRequestTime call.response then responseTime else lastRequestTime
    issueTime :: runGeocodingQueue newLast responseTime rest

/-- C3: three tasks drained back-to-back by the serial queue, where the
second call's response is well-formed JSON carrying neither an `error` field
nor a `display_name` (HTTP 200, e.g. an empty object).  Because that branch
never updates `lastGeocodingRequestTime`, the third request is issued only
100 ms after the second — the claimed 5000 ms minimum spacing is violated,
contradicting the function's own doc comment ("Respects rate limiting (max 1
request per 5 seconds)").  The first gap (success path) does respect the
limit. -/
theorem runGeocodingQueue_spacing_violation :
    runGeocodingQueue 0 1000000
        [⟨100, .success⟩, ⟨100, .noDisplayName⟩, ⟨100, .success⟩]
      = [1000000, 1005100, 1005200] ∧
      1005100 - 1000000 ≥ geocodingRateLimitMs ∧
      1005200 - 1005100 < geocodingRateLimitMs ∧
      updatesLastRequestTime .noDisplayName = false := by
  refine ⟨by decide, by decide, by decide, by decide⟩

end ExifExtractor

end SynPhotoSlideshow
